import Mathlib

/-!
# MicroHTTP: metrics aggregator and reverse-proxy forwarder

A shallow embedding of `metrics_data.go`, `proxy.go` and the part of
`main.go` that creates the metrics aggregator.

* An allocated Go map is a finite list of entries with pairwise distinct keys
  (`GoMap`).
* Go `int` has 32 or 64 bits, by platform (`IntSize`); `++` on a counter wraps
  around (`wrapInt`).
* A value of a Go map type is the nil map or an allocated map (`MapValue`); an
  assignment to an entry of the nil map panics. The maps `httpProxy` assigns into
  (`req.Header`, `w.Header()`) are allocated by `net/http`; the maps it only reads
  (`cfg.Proxy.Rules`, `r.Header`, `resp.Header`) read the same nil as empty, so
  all of them are `GoMap`s.
* Calls into the Go library (`http.NewRequest`, `http.ResponseWriter`) follow the
  documented behaviour of `net/http`; functions of the repository that are not
  in these three files are parameters (`Env`) or recorded calls (`Call`).
* A method with effects returns its new receiver state together with the
  effects it performed, in program order.
-/

namespace MicroHTTP

/-! ## Go maps -/

/-- An allocated Go `map[κ]ν`: finitely many entries, no key twice. -/
structure GoMap (κ : Type) (ν : Type) where
  entries : List (κ × ν)
  nodup : (entries.map Prod.fst).Nodup

namespace GoMap

variable {κ ν : Type} [DecidableEq κ]

/-- The map that Go `make(map[κ]ν)` allocates. -/
def make : GoMap κ ν := ⟨[], List.nodup_nil⟩

/-- Search of an entry list for key `k`. -/
def lookupEntries : List (κ × ν) → κ → Option ν
  | [], _ => none
  | (k', v) :: rest, k => if k' = k then some v else lookupEntries rest k

/-- Go `v, ok := m[k]`: `some v` when `ok`, `none` otherwise. -/
def get? (m : GoMap κ ν) (k : κ) : Option ν := lookupEntries m.entries k

/-- The entries whose key differs from `k`. -/
def eraseEntries (l : List (κ × ν)) (k : κ) : List (κ × ν) :=
  l.filter (fun kv => decide (kv.1 ≠ k))

/-- Go `m[k] = v`: any former entry for `k` is replaced. -/
def set (m : GoMap κ ν) (k : κ) (v : ν) : GoMap κ ν :=
  ⟨(k, v) :: eraseEntries m.entries k,
    List.nodup_cons.2
      ⟨fun h => by
          obtain ⟨kv, hkv, hk⟩ := List.mem_map.1 h
          have hne := (List.mem_filter.1 hkv).2
          simp only [ne_eq, decide_not, Bool.not_eq_eq_eq_not, Bool.not_true,
            decide_eq_false_iff_not] at hne
          exact hne hk,
        m.nodup.sublist ((List.filter_sublist m.entries).map Prod.fst)⟩⟩

/-- Sum of `f` over the values of a map. -/
def sumValues (f : ν → Int) (m : GoMap κ ν) : Int :=
  (m.entries.map (fun kv => f kv.2)).sum

end GoMap

/-- A value of Go type `map[κ]ν`: the nil map or an allocated map. -/
inductive MapValue (κ : Type) (ν : Type) where
  | nil
  | alloc (m : GoMap κ ν)

namespace MapValue

variable {κ ν : Type} [DecidableEq κ]

/-- Go `make(map[κ]ν)`. -/
def make : MapValue κ ν := alloc GoMap.make

/-- Whether the value is the nil map. -/
def isNil : MapValue κ ν → Bool
  | nil => true
  | alloc _ => false

/-- Go `v, ok := m[k]`; reading the nil map finds nothing. -/
def get? : MapValue κ ν → κ → Option ν
  | nil, _ => none
  | alloc m, k => m.get? k

/-- Go `m[k] = v`; on the nil map it panics, which is the `error` outcome. -/
def set : MapValue κ ν → κ → ν → Except String (MapValue κ ν)
  | nil, _, _ => .error "assignment to entry in nil map"
  | alloc m, k, v => .ok (alloc (m.set k v))

/-- The entries a `range` loop visits; the nil map has none. -/
def entries : MapValue κ ν → List (κ × ν)
  | nil => []
  | alloc m => m.entries

/-- Sum of `f` over the values of a map. -/
def sumValues (f : ν → Int) (m : MapValue κ ν) : Int :=
  (m.entries.map (fun kv => f kv.2)).sum

end MapValue

/-! ## Go `int` -/

/-- The size of Go's `int`: 32 or 64 bits, by platform. -/
inductive IntSize
  | bits32
  | bits64
  deriving DecidableEq, Repr

/-- The number of bits. -/
def IntSize.bits : IntSize → Nat
  | .bits32 => 32
  | .bits64 => 64

/-- The least `int`. -/
def minInt (sz : IntSize) : Int := -((2 ^ (sz.bits - 1) : Nat) : Int)

/-- The largest `int`. -/
def maxInt (sz : IntSize) : Int := ((2 ^ (sz.bits - 1) : Nat) : Int) - 1

/-- The `int` that a result `x` of integer arithmetic is stored as: two's complement
wrap-around. -/
def wrapInt (sz : IntSize) (x : Int) : Int :=
  (x - minInt sz) % ((2 ^ sz.bits : Nat) : Int) + minInt sz

/-! ## `metrics_data.go` -/

/-- The pieces of text `display` writes, one per `io.WriteString` call. -/
inductive Chunk
  | total (n : Int)
  | statusOpen (k : Int)
  | item (a : Int) (p : String)
  | statusClose
  deriving DecidableEq, Repr

/-- The text of a chunk: the `fmt.Sprintf` results of `display`. -/
def Chunk.render : Chunk → String
  | .total n => "<h1>MicroHTTP metrics</h1><br><b>Total requests:</b> " ++ toString n ++ "<br>"
  | .statusOpen k => "<br><b>" ++ toString k ++ "</b><ul>"
  | .item a p => "<li>Amount: " ++ toString a ++ " - Path: " ++ p ++ "</li>"
  | .statusClose => "</ul>"

/-- Effects of the aggregator's methods: the embedded `sync.Mutex` and the sink. -/
inductive Event
  | Lock
  | Unlock
  | WriteString (c : Chunk)
  deriving DecidableEq, Repr

/-- An `io.Writer` with state `σ`; callers here discard what a write returns. -/
structure Writer (σ : Type) where
  WriteString : σ → String → σ

/-- The order in which one `range` loop visits a map is not fixed by Go: any
rearrangement of the entries may occur, and it may differ from loop to loop. -/
structure RangeOrder where
  outer : List (Int × MapValue String Int) → List (Int × MapValue String Int)
  outer_perm : ∀ l, (outer l).Perm l
  inner : Int → List (String × Int) → List (String × Int)
  inner_perm : ∀ k l, (inner k l).Perm l

/-- Struct `metricsData`; the mutex is visible through `Event.Lock` and `Event.Unlock`. -/
structure metricsData where
  enabled : Bool
  totalRequests : Int
  paths : MapValue Int (MapValue String Int)

/-- The body of `concat` between `md.Lock()` and `md.totalRequests++`: the new value of
`md.paths`, or the panic of an assignment to a nil map. -/
def concatPaths (sz : IntSize) (md : metricsData) (e : Int) (p : String) :
    Except String (MapValue Int (MapValue String Int)) :=
  match md.paths.get? e with
  | some inner =>
    match inner.get? p with
    | some a => (inner.set p (wrapInt sz (a + 1))).bind (fun inner' => md.paths.set e inner')
    | none => (inner.set p 1).bind (fun inner' => md.paths.set e inner')
  | none =>
    let m : MapValue String Int := MapValue.make
    (md.paths.set e m).bind (fun paths' =>
      (m.set p 1).bind (fun m' => paths'.set e m'))

/-- Method `concat`: the new state, or the panic that ends the call, and the effects
performed. A panic leaves the mutex locked. -/
def metricsData.concat (sz : IntSize) (md : metricsData) (e : Int) (p : String) :
    Except String metricsData × List Event :=
  if md.enabled then
    match concatPaths sz md e p with
    | .ok paths =>
      (.ok { md with paths := paths, totalRequests := wrapInt sz (md.totalRequests + 1) },
        [Event.Lock, Event.Unlock])
    | .error msg => (.error msg, [Event.Lock])
  else
    (.ok md, [])

/-- The chunks of the inner loop of `display` for one status code. -/
def displayStatus (ord : RangeOrder) (kv : Int × MapValue String Int) : List Chunk :=
  Chunk.statusOpen kv.1 ::
    ((ord.inner kv.1 kv.2.entries).map (fun pa => Chunk.item pa.2 pa.1) ++ [Chunk.statusClose])

/-- All chunks `display` writes, in order. -/
def displayChunks (ord : RangeOrder) (md : metricsData) : List Chunk :=
  Chunk.total md.totalRequests :: (ord.outer md.paths.entries).flatMap (displayStatus ord)

/-- Method `display`: the state afterwards, the sink afterwards and the effects. -/
def metricsData.display {σ : Type} (md : metricsData) (W : Writer σ) (ord : RangeOrder) (o : σ) :
    metricsData × σ × List Event :=
  let cs := displayChunks ord md
  (md, cs.foldl (fun s c => W.WriteString s c.render) o,
    Event.Lock :: (cs.map Event.WriteString ++ [Event.Unlock]))

/-! ## `main.go`: creation of the aggregator in `startServer` -/

/-- The `md` field of the `micro` value built in `startServer`. -/
def startServer_md (metricsEnabled : Bool) : metricsData :=
  { enabled := metricsEnabled, totalRequests := 0, paths := MapValue.make }

/-- A finite sequence of `concat` calls, applied one after the other. A call that panics
ends the run: the mutex stays locked and no later call gets past `md.Lock()`. -/
def runConcats (sz : IntSize) (md : metricsData) : List (Int × String) → Except String metricsData
  | [] => .ok md
  | c :: cs =>
    match (md.concat sz c.1 c.2).1 with
    | .ok md' => runConcats sz md' cs
    | .error msg => .error msg

/-- The count stored for `(e, p)`, `none` when `paths[e]` or `paths[e][p]` is absent. -/
def metricsData.count? (md : metricsData) (e : Int) (p : String) : Option Int :=
  (md.paths.get? e).bind (fun inner => inner.get? p)

/-- Go `md.paths[e][p]` read as a value: an absent entry reads as 0. -/
def metricsData.count (md : metricsData) (e : Int) (p : String) : Int :=
  (md.count? e p).getD 0

/-- Sum over all status codes of the sum of the per-path counts. -/
def metricsData.sumCounts (md : metricsData) : Int :=
  MapValue.sumValues (MapValue.sumValues id) md.paths

/-- Every map of the state is allocated: `paths` and each map stored in it. -/
def metricsData.allocated (md : metricsData) : Prop :=
  md.paths.isNil = false ∧ ∀ e inner, md.paths.get? e = some inner → inner.isNil = false

/-! ## `proxy.go` -/

/-- Go `http.Header`, a `map[string][]string`. -/
abbrev Header := GoMap String (List String)

/-- Method `Header.Get` at a key in canonical form (`Content-Type` and `Content-Length`
are): the first value under the key, the empty string when there is none. -/
def Header.Get (h : Header) (key : String) : String :=
  match h.get? key with
  | some (v :: _) => v
  | _ => ""

/-- Method `Header.Set` at a key in canonical form: the key holds the one value afterwards. -/
def Header.Set (h : Header) (key value : String) : Header :=
  h.set key [value]

/-- The fields of `url.URL` that `httpProxy` reads or writes, and the origin. -/
structure URL where
  Scheme : String
  Host : String
  Path : String
  RawPath : String
  RawQuery : String
  deriving DecidableEq, Repr

/-- The fields of `http.Request` that `httpProxy` reads or writes; a body is its content. -/
structure Request where
  Method : String
  URL : URL
  Header : Header
  Body : String
  Host : String
  RemoteAddr : String

/-- The fields of `http.Response` that `httpProxy` reads. -/
structure Response where
  StatusCode : Int
  Header : Header
  Body : String

/-- The `http.ResponseWriter` that the `net/http` server hands to a handler, as far as the
handler drives it: the header map handed out by `Header()`, the informational (1xx)
responses sent, the status and header map committed by the write of the final status,
and the body bytes accepted. What the server adds by itself when it puts the committed
response on the wire (`Date`, a sniffed `Content-Type`, the framing headers), and the
status 200 it writes when a handler returns without having written one, are outside
this record. -/
structure ResponseWriter where
  header : Header
  informational : List (Int × Header)
  committed : Option (Int × Header)
  body : String

/-- Method `ResponseWriter.WriteHeader`. Once a final status is written a further call
sends nothing. Otherwise a code below 100 or above 999 panics (the `error` outcome), a 1xx
code other than 101 sends an informational response and commits nothing, and any other
code is committed together with the header map as it stands. -/
def ResponseWriter.WriteHeader (w : ResponseWriter) (statusCode : Int) :
    Except String ResponseWriter :=
  match w.committed with
  | some _ => .ok w
  | none =>
    if statusCode < 100 ∨ 999 < statusCode then
      .error ("invalid WriteHeader code " ++ toString statusCode)
    else if 100 ≤ statusCode ∧ statusCode ≤ 199 ∧ statusCode ≠ 101 then
      .ok { w with informational := w.informational ++ [(statusCode, w.header)] }
    else
      .ok { w with committed := some (statusCode, w.header) }

/-- The effect of `w.Header().Set(key, value)`: the handed-out map changes, what has been
sent does not. -/
def ResponseWriter.HeaderSet (w : ResponseWriter) (key value : String) : ResponseWriter :=
  { w with header := w.header.Set key value }

/-- Function `bodyAllowedForStatus` of `net/http`. -/
def bodyAllowedForStatus (status : Int) : Bool :=
  if 100 ≤ status ∧ status ≤ 199 then false
  else if status = 204 then false
  else if status = 304 then false
  else true

/-- Method `ResponseWriter.Write`: commits status 200 first when no final status has been
written; the bytes are accepted unless the committed status allows no body. -/
def ResponseWriter.Write (w : ResponseWriter) (b : String) : ResponseWriter :=
  match w.committed with
  | some (status, _) =>
    if bodyAllowedForStatus status then { w with body := w.body ++ b } else w
  | none => { w with committed := some (200, w.header), body := w.body ++ b }

/-- Go `io.Copy(w, src)`: nothing is written when the source is empty. -/
def ioCopy (w : ResponseWriter) (src : String) : ResponseWriter :=
  if src = "" then w else w.Write src

/-- Log levels named in the sources. -/
inductive LogLevel
  | logNONE
  | logERROR
  | logDEBUG
  deriving DecidableEq, Repr

/-- Calls `httpProxy` makes whose effect lies outside the function, in program order, and
the panic that ends it, if one does. -/
inductive Call
  | NewRequest (method url : String)
  | Do (req : Request)
  | logAction (level : LogLevel) (err : String)
  | httpThrowError (w : ResponseWriter) (r : Request) (e : Int)
  | BodyClose
  | logNetwork (code : Int) (r : Request)
  | panic (msg : String)

/-- The characters of an HTTP token besides letters and digits, by code point. -/
def tokenPunctuation : List Nat :=
  [33, 35, 36, 37, 38, 39, 42, 43, 45, 46, 94, 95, 96, 124, 126]

/-- Function `validMethod` of `net/http`: a non-empty token. -/
def validMethod (method : String) : Bool :=
  decide (0 < method.length) &&
    method.toList.all (fun c => c.isAlphanum || decide (c.toNat ∈ tokenPunctuation))

/-- Function `http.NewRequest`, given the URL parser (`url.Parse` and the removal of an empty
port): an empty method stands for GET, the header map is new and empty. -/
def NewRequest (parse : String → Except String URL) (method url : String) (body : String) :
    Except String Request :=
  let method := if method = "" then "GET" else method
  if validMethod method then
    match parse url with
    | .error err => .error err
    | .ok u =>
      .ok { Method := method, URL := u, Header := GoMap.make, Body := body, Host := u.Host,
            RemoteAddr := "" }
  else
    .error ("net/http: invalid method " ++ method)

/-- What `httpProxy` needs from outside `proxy.go`. -/
structure Env where
  httpTrimPort : String → String
  firewallProxy : String → String → Bool
  parse : String → Except String URL
  Do : Request → Except String Response
  headerOrder : List (String × List String) → List (String × List String)
  headerOrder_perm : ∀ l, (headerOrder l).Perm l

/-- The proxy rule table `cfg.Proxy.Rules`. -/
structure ProxyConfig where
  Rules : GoMap String String

/-- The part of `microConfig` that `httpProxy` reads. -/
structure microConfig where
  Proxy : ProxyConfig

/-- The loop `for k, v := range r.Header { req.Header[k] = v }`. -/
def copyHeader (order : List (String × List String) → List (String × List String))
    (src dst : Header) : Header :=
  (order src.entries).foldl (fun h kv => h.set kv.1 kv.2) dst

/-- The statements of `httpProxy` between `http.NewRequest` and `cl.Do`. -/
def outbound (env : Env) (r : Request) (req : Request) : Request :=
  let req := { req with URL := { req.URL with Path := r.URL.Path } }
  let req := { req with URL := { req.URL with RawPath := r.URL.RawPath } }
  let req := { req with URL := { req.URL with RawQuery := r.URL.RawQuery } }
  let req := { req with RemoteAddr := r.RemoteAddr }
  { req with Header := copyHeader env.headerOrder r.Header req.Header }

/-- Method `httpProxy`: the response writer afterwards and the calls made. A panic in
`w.WriteHeader` ends the call at that statement. -/
def httpProxy (env : Env) (w : ResponseWriter) (r : Request) (cfg : microConfig) :
    ResponseWriter × List Call :=
  let host := env.httpTrimPort r.Host
  let remote := env.httpTrimPort r.RemoteAddr
  match cfg.Proxy.Rules.get? host with
  | some val =>
    if env.firewallProxy remote host then
      (w, [Call.httpThrowError w r 403])
    else
      match NewRequest env.parse r.Method val r.Body with
      | .error err =>
        (w, [Call.NewRequest r.Method val, Call.logAction LogLevel.logERROR err,
              Call.httpThrowError w r 502])
      | .ok req0 =>
        let req := outbound env r req0
        match env.Do req with
        | .ok resp =>
          match w.WriteHeader resp.StatusCode with
          | .error msg =>
            (w, [Call.NewRequest r.Method val, Call.Do req, Call.panic msg])
          | .ok w =>
            let w := w.HeaderSet "Content-Type" (resp.Header.Get "Content-Type")
            let w := w.HeaderSet "Content-Length" (resp.Header.Get "Content-Length")
            let w := ioCopy w resp.Body
            (w, [Call.NewRequest r.Method val, Call.Do req, Call.BodyClose,
                  Call.logNetwork resp.StatusCode r])
        | .error err =>
          (w, [Call.NewRequest r.Method val, Call.Do req,
                Call.logAction LogLevel.logERROR err, Call.httpThrowError w r 502])
  | none => (w, [])

/-! ## Observations on effects -/

/-- The chunks written to the sink, in order. -/
def writes : List Event → List Chunk
  | [] => []
  | Event.WriteString c :: t => c :: writes t
  | _ :: t => writes t

/-- The total a report states: the number in its first `total` chunk. -/
def reportedTotal : List Chunk → Option Int
  | [] => none
  | Chunk.total n :: _ => some n
  | _ :: t => reportedTotal t

/-- The (status, path, count) triples a report states; `cur` is the status code of the
list that is open at this point. -/
def reportedTriples : Option Int → List Chunk → List (Int × String × Int)
  | _, [] => []
  | cur, Chunk.total _ :: t => reportedTriples cur t
  | _, Chunk.statusOpen k :: t => reportedTriples (some k) t
  | some k, Chunk.item a p :: t => (k, p, a) :: reportedTriples (some k) t
  | none, Chunk.item _ _ :: t => reportedTriples none t
  | _, Chunk.statusClose :: t => reportedTriples none t

/-- The triples of one status list. -/
def statusTriples (ord : RangeOrder) (kv : Int × MapValue String Int) : List (Int × String × Int) :=
  (ord.inner kv.1 kv.2.entries).map (fun pa => (kv.1, pa.1, pa.2))

/-- Whether no write to the sink happens while the mutex is held; `held` tells whether
it is held at the start. -/
def noWriteUnderLock : Bool → List Event → Bool
  | _, [] => true
  | _, Event.Lock :: t => noWriteUnderLock true t
  | _, Event.Unlock :: t => noWriteUnderLock false t
  | held, Event.WriteString _ :: t => !held && noWriteUnderLock held t

/-- Modelled from the spec: the method `httpThrowError` is not among the sources. It emits
the error response with status `e` and, being a terminal response path, hands the status
and the request path to the aggregator once ("metrics record status 502 for that path"). -/
def httpThrowError_concats (r : Request) (e : Int) : List (Int × String) :=
  [(e, r.URL.Path)]

/-- Modelled from the spec: the functions `logAction` and `logNetwork` are not among the
sources. They hand an event to the logging collaborator and, receiving neither the server
value nor its aggregator, record nothing. -/
def log_concats : List (Int × String) :=
  []

/-- The `concat` calls made in the course of `httpProxy`, in order. The body of `httpProxy`
has none of its own; `http.NewRequest`, `cl.Do` and `Close` belong to the Go library. -/
def concatCalls : List Call → List (Int × String)
  | [] => []
  | Call.httpThrowError _ r e :: t => httpThrowError_concats r e ++ concatCalls t
  | Call.logAction _ _ :: t => log_concats ++ concatCalls t
  | Call.logNetwork _ _ :: t => log_concats ++ concatCalls t
  | _ :: t => concatCalls t

/-- The message of the panic that ended a call, if one did. -/
def panicMessage {α : Type} : Except String α → Option String
  | .error msg => some msg
  | .ok _ => none

/-- The outbound requests handed to the client, in order. -/
def doCalls : List Call → List Request
  | [] => []
  | Call.Do req :: t => req :: doCalls t
  | _ :: t => doCalls t

/-- The requests built with `http.NewRequest`, as (method, url), in order. -/
def newRequestCalls : List Call → List (String × String)
  | [] => []
  | Call.NewRequest m u :: t => (m, u) :: newRequestCalls t
  | _ :: t => newRequestCalls t

/-! ## Sample inputs -/

/-- An iteration order that visits the entries as stored. -/
def storedOrder : RangeOrder :=
  ⟨fun l => l, fun l => List.Perm.refl l, fun _ l => l, fun _ l => List.Perm.refl l⟩

/-- An iteration order that visits the entries back to front. -/
def reverseOrder : RangeOrder :=
  ⟨List.reverse, fun l => List.reverse_perm l, fun _ l => l.reverse,
    fun _ l => List.reverse_perm l⟩

/-- A sink that keeps every string written to it. -/
def listWriter : Writer (List String) :=
  ⟨fun s x => s ++ [x]⟩

/-- A response writer nothing has been written to. -/
def freshWriter : ResponseWriter :=
  { header := GoMap.make, informational := [], committed := none, body := "" }

/-- An inbound `POST /api/items?id=7` for host `shop.example:8080` with two headers. -/
def sampleRequest : Request :=
  { Method := "POST"
    URL := { Scheme := "", Host := "", Path := "/api/items", RawPath := "", RawQuery := "id=7" }
    Header := (GoMap.make.set "Accept" ["text/html", "application/json"]).set "X-Trace" ["t1"]
    Body := "payload"
    Host := "shop.example:8080"
    RemoteAddr := "192.0.2.7:51000" }

/-- A configuration with one proxy rule, whose upstream URL has a path and a query. -/
def sampleConfig : microConfig :=
  { Proxy := { Rules := GoMap.make.set "shop.example" "http://10.0.0.5:9000/base?x=1" } }

/-- An upstream response with status 200 and three headers. -/
def sampleResponse : Response :=
  { StatusCode := 200
    Header := ((GoMap.make.set "Content-Type" ["application/json"]).set
      "Content-Length" ["2"]).set "X-Upstream" ["u1"]
    Body := "{}" }

/-- A sample surrounding: the text before the first colon as the port-stripped name, a fixed
firewall decision, a parser that knows the sample rule only, a fixed upstream outcome. -/
def sampleEnv (block : Bool) (upstream : Except String Response) : Env :=
  { httpTrimPort := fun s => String.mk (s.toList.takeWhile (fun c => c != ':'))
    firewallProxy := fun _ _ => block
    parse := fun u =>
      if u = "http://10.0.0.5:9000/base?x=1" then
        .ok { Scheme := "http", Host := "10.0.0.5:9000", Path := "/base", RawPath := "",
              RawQuery := "x=1" }
      else .error "parse: unknown URL"
    Do := fun _ => upstream
    headerOrder := List.reverse
    headerOrder_perm := fun l => List.reverse_perm l }

/-- An enabled aggregator after `/` was served twice and `/missing` was not found once. -/
def sampleMetrics : metricsData :=
  { enabled := true
    totalRequests := 3
    paths := MapValue.alloc
      ((GoMap.make.set 404 (MapValue.alloc (GoMap.make.set "/missing" 1))).set 200
        (MapValue.alloc (GoMap.make.set "/" 2))) }

/-- Three recorded requests. -/
def sampleCalls : List (Int × String) :=
  [(200, "/"), (404, "/missing"), (200, "/")]

/-- An enabled aggregator whose total is the largest 64-bit `int`. -/
def fullCounter : metricsData :=
  { enabled := true, totalRequests := 9223372036854775807, paths := MapValue.make }

/-- The enabled aggregator `metricsData{enabled: true}`: its `paths` is the nil map. -/
def nilPaths : metricsData :=
  { enabled := true, totalRequests := 0, paths := MapValue.nil }

/-- The request `http.NewRequest` builds from the sample request and the sample rule. -/
def sampleBuilt : Request :=
  { Method := "POST"
    URL := { Scheme := "http", Host := "10.0.0.5:9000", Path := "/base", RawPath := "",
             RawQuery := "x=1" }
    Header := GoMap.make
    Body := "payload"
    Host := "10.0.0.5:9000"
    RemoteAddr := "" }

/-! ## Facts about maps -/

namespace GoMap

variable {κ ν : Type} [DecidableEq κ]

theorem eraseEntries_cons_eq (k : κ) (v : ν) (tl : List (κ × ν)) :
    eraseEntries ((k, v) :: tl) k = eraseEntries tl k := by
  simp [eraseEntries]

theorem eraseEntries_cons_ne {k0 k : κ} (v : ν) (tl : List (κ × ν)) (h : k0 ≠ k) :
    eraseEntries ((k0, v) :: tl) k = (k0, v) :: eraseEntries tl k := by
  simp [eraseEntries, h]

theorem lookupEntries_cons_eq (k : κ) (v : ν) (tl : List (κ × ν)) :
    lookupEntries ((k, v) :: tl) k = some v := by
  simp [lookupEntries]

theorem lookupEntries_cons_ne {k0 k : κ} (v : ν) (tl : List (κ × ν)) (h : k0 ≠ k) :
    lookupEntries ((k0, v) :: tl) k = lookupEntries tl k := by
  simp [lookupEntries, h]

theorem lookupEntries_eraseEntries_ne (l : List (κ × ν)) {k k' : κ} (hne : k ≠ k') :
    lookupEntries (eraseEntries l k) k' = lookupEntries l k' := by
  induction l with
  | nil => rfl
  | cons hd tl ih =>
    obtain ⟨k0, v0⟩ := hd
    by_cases h : k0 = k
    · subst h
      rw [eraseEntries_cons_eq, lookupEntries_cons_ne v0 tl hne, ih]
    · rw [eraseEntries_cons_ne v0 tl h]
      by_cases h2 : k0 = k'
      · subst h2
        rw [lookupEntries_cons_eq, lookupEntries_cons_eq]
      · rw [lookupEntries_cons_ne _ _ h2, lookupEntries_cons_ne _ _ h2, ih]

theorem get?_make (k : κ) : (make : GoMap κ ν).get? k = none := rfl

theorem get?_set_self (m : GoMap κ ν) (k : κ) (v : ν) : (m.set k v).get? k = some v := by
  simp [get?, set, lookupEntries]

theorem get?_set_ne (m : GoMap κ ν) {k k' : κ} (v : ν) (hne : k ≠ k') :
    (m.set k v).get? k' = m.get? k' := by
  simp [get?, set, lookupEntries, hne, lookupEntries_eraseEntries_ne m.entries hne]

theorem lookupEntries_none_of_not_mem (l : List (κ × ν)) (k : κ)
    (h : k ∉ l.map Prod.fst) : lookupEntries l k = none := by
  induction l with
  | nil => rfl
  | cons hd tl ih =>
    simp only [List.map_cons, List.mem_cons, not_or] at h
    have h1 : hd.1 ≠ k := fun e => h.1 e.symm
    simpa [lookupEntries, h1] using ih h.2

theorem eraseEntries_of_not_mem (l : List (κ × ν)) (k : κ)
    (h : k ∉ l.map Prod.fst) : eraseEntries l k = l := by
  apply List.filter_eq_self.2
  intro kv hkv
  have : kv.1 ≠ k := fun e => h (e ▸ List.mem_map_of_mem Prod.fst hkv)
  simpa using this

/-- Removing key `k` takes the weight of the value stored under `k` out of the sum. -/
theorem sum_eraseEntries (f : ν → Int) (l : List (κ × ν)) (k : κ)
    (h : (l.map Prod.fst).Nodup) :
    ((eraseEntries l k).map (fun kv => f kv.2)).sum
      = (l.map (fun kv => f kv.2)).sum - ((lookupEntries l k).map f).getD 0 := by
  induction l with
  | nil => simp [eraseEntries, lookupEntries]
  | cons hd tl ih =>
    obtain ⟨k0, v0⟩ := hd
    have hnd : k0 ∉ tl.map Prod.fst ∧ (tl.map Prod.fst).Nodup :=
      List.nodup_cons.1 (by simpa only [List.map_cons] using h)
    by_cases hk : k0 = k
    · subst hk
      rw [eraseEntries_cons_eq, eraseEntries_of_not_mem tl k0 hnd.1, lookupEntries_cons_eq]
      simp
    · rw [eraseEntries_cons_ne v0 tl hk, lookupEntries_cons_ne v0 tl hk]
      simp only [List.map_cons, List.sum_cons, ih hnd.2]
      ring

theorem lookupEntries_eq_some_iff (l : List (κ × ν)) (h : (l.map Prod.fst).Nodup) (k : κ)
    (v : ν) : lookupEntries l k = some v ↔ (k, v) ∈ l := by
  induction l with
  | nil => simp [lookupEntries]
  | cons hd tl ih =>
    obtain ⟨k0, v0⟩ := hd
    have hnd : k0 ∉ tl.map Prod.fst ∧ (tl.map Prod.fst).Nodup :=
      List.nodup_cons.1 (by simpa only [List.map_cons] using h)
    by_cases hk : k0 = k
    · subst hk
      rw [lookupEntries_cons_eq]
      constructor
      · intro hv
        cases hv
        exact List.mem_cons_self _ _
      · intro hmem
        rcases List.mem_cons.1 hmem with heq | htl
        · cases heq
          rfl
        · exact absurd (List.mem_map_of_mem Prod.fst htl) hnd.1
    · rw [lookupEntries_cons_ne v0 tl hk, ih hnd.2]
      constructor
      · exact fun hmem => List.mem_cons_of_mem _ hmem
      · intro hmem
        rcases List.mem_cons.1 hmem with heq | htl
        · cases heq
          exact absurd rfl hk
        · exact htl

/-- A lookup does not depend on the order of the entries. -/
theorem lookupEntries_perm {l₁ l₂ : List (κ × ν)} (hp : l₁.Perm l₂)
    (h : (l₂.map Prod.fst).Nodup) (k : κ) : lookupEntries l₁ k = lookupEntries l₂ k := by
  have h1 : (l₁.map Prod.fst).Nodup := (hp.map Prod.fst).nodup_iff.2 h
  apply Option.ext
  intro v
  rw [Option.mem_def, Option.mem_def, lookupEntries_eq_some_iff l₁ h1,
    lookupEntries_eq_some_iff l₂ h, hp.mem_iff]

/-- Assigning the entries of a list one by one: the keys of the list get its values, the
other keys keep what they had. -/
theorem get?_foldl_set (l : List (κ × ν)) (h : (l.map Prod.fst).Nodup) (m : GoMap κ ν)
    (k : κ) :
    (l.foldl (fun acc kv => acc.set kv.1 kv.2) m).get? k
      = match lookupEntries l k with
        | some v => some v
        | none => m.get? k := by
  induction l generalizing m with
  | nil => rfl
  | cons hd tl ih =>
    obtain ⟨k0, v0⟩ := hd
    have hnd : k0 ∉ tl.map Prod.fst ∧ (tl.map Prod.fst).Nodup :=
      List.nodup_cons.1 (by simpa only [List.map_cons] using h)
    rw [List.foldl_cons, ih hnd.2]
    by_cases hk : k0 = k
    · subst hk
      rw [lookupEntries_none_of_not_mem tl k0 hnd.1, lookupEntries_cons_eq]
      exact get?_set_self m k0 v0
    · rw [lookupEntries_cons_ne v0 tl hk]
      cases lookupEntries tl k with
      | none => exact get?_set_ne m v0 hk
      | some v => rfl

omit [DecidableEq κ] in
theorem sumValues_make (f : ν → Int) : sumValues f (make : GoMap κ ν) = 0 := rfl

theorem sumValues_set (f : ν → Int) (m : GoMap κ ν) (k : κ) (v : ν) :
    sumValues f (m.set k v) = sumValues f m + f v - ((m.get? k).map f).getD 0 := by
  simp only [sumValues, set, List.map_cons, List.sum_cons, get?,
    sum_eraseEntries f m.entries k m.nodup]
  ring

end GoMap

/-! ## Facts about Go `int` -/

theorem wrapInt_of_fits (sz : IntSize) (x : Int) (h1 : minInt sz ≤ x) (h2 : x ≤ maxInt sz) :
    wrapInt sz x = x := by
  cases sz <;> simp only [wrapInt, minInt, maxInt, IntSize.bits] at * <;> norm_num at * <;>
    rw [Int.emod_eq_of_lt (by omega) (by omega)] <;> omega

theorem wrapInt_one (sz : IntSize) : wrapInt sz (0 + 1) = 1 := by
  cases sz <;> decide

theorem minInt_neg (sz : IntSize) : minInt sz < 0 := by
  cases sz <;> decide

theorem maxInt_pos (sz : IntSize) : 0 < maxInt sz := by
  cases sz <;> decide

/-- One past the largest `int` is stored as the least `int`. -/
theorem wrapInt_maxInt_succ (sz : IntSize) : wrapInt sz (maxInt sz + 1) = minInt sz := by
  cases sz <;> decide

/-! ## Facts about `concat` -/

theorem MapValue.sumValues_alloc {κ ν : Type} (f : ν → Int) (m : GoMap κ ν) :
    MapValue.sumValues f (MapValue.alloc m) = GoMap.sumValues f m := rfl

theorem concat_disabled (sz : IntSize) (md : metricsData) (e : Int) (p : String)
    (h : md.enabled = false) : md.concat sz e p = (.ok md, []) := by
  simp [metricsData.concat, h]

theorem concatPaths_nil_paths (sz : IntSize) (md : metricsData) (e : Int) (p : String)
    (hp : md.paths = MapValue.nil) :
    concatPaths sz md e p = .error "assignment to entry in nil map" := by
  simp only [concatPaths, hp, MapValue.get?, MapValue.set, Except.bind]

theorem concatPaths_nil_inner (sz : IntSize) (md : metricsData) (e : Int) (p : String)
    (pm : GoMap Int (MapValue String Int)) (hp : md.paths = MapValue.alloc pm)
    (he : pm.get? e = some MapValue.nil) :
    concatPaths sz md e p = .error "assignment to entry in nil map" := by
  simp only [concatPaths, hp, MapValue.get?, he, MapValue.set, Except.bind]

theorem concatPaths_absent_status (sz : IntSize) (md : metricsData) (e : Int) (p : String)
    (pm : GoMap Int (MapValue String Int)) (hp : md.paths = MapValue.alloc pm)
    (he : pm.get? e = none) :
    concatPaths sz md e p
      = .ok (MapValue.alloc ((pm.set e MapValue.make).set e
          (MapValue.alloc ((GoMap.make : GoMap String Int).set p 1)))) := by
  simp only [concatPaths, hp, MapValue.get?, he, MapValue.set, MapValue.make, Except.bind]

theorem concatPaths_absent_path (sz : IntSize) (md : metricsData) (e : Int) (p : String)
    (pm : GoMap Int (MapValue String Int)) (im : GoMap String Int)
    (hp : md.paths = MapValue.alloc pm) (he : pm.get? e = some (MapValue.alloc im))
    (hq : im.get? p = none) :
    concatPaths sz md e p = .ok (MapValue.alloc (pm.set e (MapValue.alloc (im.set p 1)))) := by
  simp only [concatPaths, hp, MapValue.get?, he, hq, MapValue.set, Except.bind]

theorem concatPaths_present (sz : IntSize) (md : metricsData) (e : Int) (p : String)
    (pm : GoMap Int (MapValue String Int)) (im : GoMap String Int) (a : Int)
    (hp : md.paths = MapValue.alloc pm) (he : pm.get? e = some (MapValue.alloc im))
    (hq : im.get? p = some a) :
    concatPaths sz md e p
      = .ok (MapValue.alloc (pm.set e (MapValue.alloc (im.set p (wrapInt sz (a + 1)))))) := by
  simp only [concatPaths, hp, MapValue.get?, he, hq, MapValue.set, Except.bind]

/-- The new `paths` when no map that `concat` assigns into is nil. -/
theorem concatPaths_ok (sz : IntSize) (md : metricsData) (e : Int) (p : String)
    (hp : md.paths.isNil = false)
    (hin : ∀ inner, md.paths.get? e = some inner → inner.isNil = false) :
    ∃ (pm pm' : GoMap Int (MapValue String Int)) (im' : GoMap String Int),
      md.paths = MapValue.alloc pm ∧
      concatPaths sz md e p = .ok (MapValue.alloc pm') ∧
      pm'.get? e = some (MapValue.alloc im') ∧
      (∀ e', e' ≠ e → pm'.get? e' = pm.get? e') ∧
      im'.get? p = some (wrapInt sz (md.count e p + 1)) ∧
      (∀ p', p' ≠ p → im'.get? p' = (pm.get? e).bind (fun inner => inner.get? p')) ∧
      GoMap.sumValues (MapValue.sumValues id) pm'
        = GoMap.sumValues (MapValue.sumValues id) pm - md.count e p
          + wrapInt sz (md.count e p + 1) := by
  cases hpm : md.paths with
  | nil => rw [hpm] at hp; cases hp
  | alloc pm =>
    have hcount : md.count e p
        = (((pm.get? e).bind (fun inner => inner.get? p)).getD 0) := by
      simp only [metricsData.count, metricsData.count?, hpm, MapValue.get?]
    cases he : pm.get? e with
    | none =>
      have hc0 : md.count e p = 0 := by rw [hcount, he]; rfl
      refine ⟨pm, _, _, rfl, concatPaths_absent_status sz md e p pm hpm he,
        GoMap.get?_set_self _ _ _, ?_, ?_, ?_, ?_⟩
      · intro e' hne
        rw [GoMap.get?_set_ne _ _ (Ne.symm hne), GoMap.get?_set_ne _ _ (Ne.symm hne)]
      · rw [hc0, wrapInt_one]
        exact GoMap.get?_set_self _ _ _
      · intro p' hne
        rw [GoMap.get?_set_ne _ _ (Ne.symm hne), he]
        rfl
      · rw [hc0, wrapInt_one]
        simp only [GoMap.sumValues_set, GoMap.get?_set_self, he, GoMap.get?_make,
          GoMap.sumValues_make, Option.map_none', Option.map_some', Option.getD_none,
          Option.getD_some, id, MapValue.sumValues_alloc, MapValue.make]
        ring
    | some inner =>
      cases hinner : inner with
      | nil =>
        have := hin inner (by rw [hpm, MapValue.get?, he])
        rw [hinner] at this
        cases this
      | alloc im =>
        rw [hinner] at he
        cases hq : im.get? p with
        | none =>
          have hc0 : md.count e p = 0 := by
            rw [hcount, he]
            simp only [Option.bind, MapValue.get?, hq]
            rfl
          refine ⟨pm, _, _, rfl, concatPaths_absent_path sz md e p pm im hpm he hq,
            GoMap.get?_set_self _ _ _, ?_, ?_, ?_, ?_⟩
          · intro e' hne
            rw [GoMap.get?_set_ne _ _ (Ne.symm hne)]
          · rw [hc0, wrapInt_one]
            exact GoMap.get?_set_self _ _ _
          · intro p' hne
            rw [GoMap.get?_set_ne _ _ (Ne.symm hne), he]
            rfl
          · rw [hc0, wrapInt_one]
            simp only [GoMap.sumValues_set, he, hq, Option.map_none', Option.map_some',
              Option.getD_none, Option.getD_some, id, MapValue.sumValues_alloc]
            ring
        | some a =>
          have hca : md.count e p = a := by
            rw [hcount, he]
            simp only [Option.bind, MapValue.get?, hq]
            rfl
          refine ⟨pm, _, _, rfl, concatPaths_present sz md e p pm im a hpm he hq,
            GoMap.get?_set_self _ _ _, ?_, ?_, ?_, ?_⟩
          · intro e' hne
            rw [GoMap.get?_set_ne _ _ (Ne.symm hne)]
          · rw [hca]
            exact GoMap.get?_set_self _ _ _
          · intro p' hne
            rw [GoMap.get?_set_ne _ _ (Ne.symm hne), he]
            rfl
          · rw [hca]
            simp only [GoMap.sumValues_set, he, hq, Option.map_some', Option.getD_some, id,
              MapValue.sumValues_alloc]
            ring

/-- One enabled `concat` call on a state whose maps at `e` are allocated. -/
theorem concat_step (sz : IntSize) (md : metricsData) (e : Int) (p : String)
    (hen : md.enabled = true) (hp : md.paths.isNil = false)
    (hin : ∀ inner, md.paths.get? e = some inner → inner.isNil = false) :
    ∃ md', md.concat sz e p = (.ok md', [Event.Lock, Event.Unlock]) ∧
      md'.enabled = md.enabled ∧
      md'.totalRequests = wrapInt sz (md.totalRequests + 1) ∧
      md'.count? e p = some (wrapInt sz (md.count e p + 1)) ∧
      (∀ e' p', (e', p') ≠ (e, p) → md'.count? e' p' = md.count? e' p') ∧
      (∀ e', e' ≠ e → md'.paths.get? e' = md.paths.get? e') ∧
      md'.sumCounts = md.sumCounts - md.count e p + wrapInt sz (md.count e p + 1) ∧
      md'.paths.isNil = false ∧
      (∀ inner, md'.paths.get? e = some inner → inner.isNil = false) := by
  obtain ⟨pm, pm', im', hpm, hcp, hge, hgne, hgp, hgpne, hsum⟩ :=
    concatPaths_ok sz md e p hp hin
  refine ⟨{ md with paths := MapValue.alloc pm',
                    totalRequests := wrapInt sz (md.totalRequests + 1) }, ?_, rfl, rfl,
    ?_, ?_, ?_, ?_, rfl, ?_⟩
  · simp only [metricsData.concat, hen, if_true, hcp]
  · simp only [metricsData.count?, MapValue.get?, hge, Option.bind, hgp]
  · intro e' p' hne
    by_cases he : e' = e
    · subst he
      have hpp : p' ≠ p := fun h => hne (by rw [h])
      simp only [metricsData.count?, MapValue.get?, hge, Option.bind, hgpne p' hpp, hpm]
    · simp only [metricsData.count?, MapValue.get?, hgne e' he, hpm]
  · intro e' hne
    simp only [MapValue.get?, hgne e' hne, hpm]
  · simp only [metricsData.sumCounts, MapValue.sumValues_alloc, hsum, hpm]
  · intro inner hinner
    simp only [MapValue.get?, hge, Option.some.injEq] at hinner
    rw [← hinner]
    rfl

/-- An enabled `concat` keeps every map of the state allocated. -/
theorem concat_step_allocated (sz : IntSize) (md md' : metricsData) (e : Int) (p : String)
    (hen : md.enabled = true) (hall : md.allocated)
    (h : (md.concat sz e p).1 = .ok md') : md'.allocated := by
  obtain ⟨md1, hc, _, _, _, _, hne, _, hnil, hin⟩ :=
    concat_step sz md e p hen hall.1 (fun inner hi => hall.2 e inner hi)
  rw [hc] at h
  cases h
  refine ⟨hnil, fun e' inner hi => ?_⟩
  by_cases he : e' = e
  · subst he
    exact hin inner hi
  · rw [hne e' he] at hi
    exact hall.2 e' inner hi

/-! ## Sequences of `concat` calls -/

theorem runConcats_cons_ok (sz : IntSize) (md md' : metricsData) (c : Int × String)
    (cs : List (Int × String)) (h : (md.concat sz c.1 c.2).1 = .ok md') :
    runConcats sz md (c :: cs) = runConcats sz md' cs := by
  simp only [runConcats, h]

theorem runConcats_append (sz : IntSize) (cs ds : List (Int × String)) :
    ∀ md md1 : metricsData, runConcats sz md cs = .ok md1 →
      runConcats sz md (cs ++ ds) = runConcats sz md1 ds := by
  induction cs with
  | nil =>
    intro md md1 h
    simp only [runConcats, Except.ok.injEq] at h
    rw [List.nil_append, h]
  | cons c cs ih =>
    intro md md1 h
    cases hc : (md.concat sz c.1 c.2).1 with
    | error msg =>
      simp only [runConcats, hc] at h
      cases h
    | ok md' =>
      rw [runConcats_cons_ok sz md md' c cs hc] at h
      rw [List.cons_append, runConcats_cons_ok sz md md' c (cs ++ ds) hc]
      exact ih md' md1 h

theorem runConcats_disabled (sz : IntSize) (md : metricsData) (h : md.enabled = false)
    (cs : List (Int × String)) : runConcats sz md cs = .ok md := by
  induction cs with
  | nil => rfl
  | cons c cs ih =>
    rw [runConcats_cons_ok sz md md c cs (by rw [concat_disabled sz md c.1 c.2 h]), ih]

/-- A run during which no counter can reach the largest `int`: it ends without a panic,
every call adds one to its own count and to the total, and nothing else changes. -/
theorem runConcats_bounded (sz : IntSize) (cs : List (Int × String)) :
    ∀ md : metricsData, md.enabled = true → md.allocated →
      minInt sz ≤ md.totalRequests → md.totalRequests + (cs.length : Nat) ≤ maxInt sz →
      (∀ S P, minInt sz ≤ md.count S P ∧ md.count S P + (cs.length : Nat) ≤ maxInt sz) →
      ∃ md', runConcats sz md cs = .ok md' ∧ md'.enabled = true ∧ md'.allocated ∧
        md'.totalRequests = md.totalRequests + (cs.length : Nat) ∧
        md'.sumCounts = md.sumCounts + (cs.length : Nat) ∧
        ∀ S P, md'.count? S P
          = if cs.count (S, P) = 0 then md.count? S P
            else some (md.count S P + (cs.count (S, P) : Nat)) := by
  induction cs with
  | nil =>
    intro md hen hall _ _ _
    exact ⟨md, rfl, hen, hall, by simp, by simp, fun S P => by simp⟩
  | cons c cs ih =>
    intro md hen hall hlo hhi hcnt
    have hlen : (((c :: cs).length : Nat) : Int) = (cs.length : Nat) + 1 := by
      rw [List.length_cons]
      push_cast
      rfl
    rw [hlen] at hhi
    obtain ⟨md1, hc, hen1, htot1, hself, hother, _, hsum1, _, _⟩ :=
      concat_step sz md c.1 c.2 hen hall.1 (fun inner hi => hall.2 c.1 inner hi)
    have hall1 : md1.allocated :=
      concat_step_allocated sz md md1 c.1 c.2 hen hall (by rw [hc])
    have hcc := hcnt c.1 c.2
    rw [hlen] at hcc
    have hn : (0 : Int) ≤ (cs.length : Nat) := Int.natCast_nonneg _
    have hw1 : wrapInt sz (md.totalRequests + 1) = md.totalRequests + 1 :=
      wrapInt_of_fits sz _ (by omega) (by omega)
    have hw2 : wrapInt sz (md.count c.1 c.2 + 1) = md.count c.1 c.2 + 1 :=
      wrapInt_of_fits sz _ (by omega) (by omega)
    rw [hw1] at htot1
    rw [hw2] at hself hsum1
    have hcount1 : ∀ S P, md1.count S P
        = if c = (S, P) then md.count S P + 1 else md.count S P := by
      intro S P
      by_cases hcS : c = (S, P)
      · subst hcS
        simp only [metricsData.count, hself, Option.getD_some, if_true]
      · have hne : (S, P) ≠ (c.1, c.2) := fun h => hcS h.symm
        simp only [metricsData.count, hother S P hne, hcS, if_false]
    obtain ⟨md', hrun, hen', hall', htot', hsum', hcnt'⟩ :=
      ih md1 (by rw [hen1]; exact hen) hall1 (by omega) (by omega)
        (fun S P => by
          have := hcnt S P
          rw [hlen] at this
          rw [hcount1 S P]
          split <;> omega)
    refine ⟨md', ?_, hen', hall', ?_, ?_, ?_⟩
    · rw [runConcats_cons_ok sz md md1 c cs (by rw [hc])]
      exact hrun
    · rw [htot', htot1, hlen]
      ring
    · rw [hsum', hsum1, hlen]
      ring
    · intro S P
      rw [hcnt' S P, hcount1 S P]
      by_cases hcS : c = (S, P)
      · subst hcS
        have hself' : md1.count? S P = some (md.count S P + 1) := hself
        simp only [List.count_cons_self, if_true, hself']
        by_cases h0 : List.count (S, P) cs = 0
        · simp [h0]
        · simp only [h0, if_false, Nat.succ_ne_zero, Nat.cast_add, Nat.cast_one,
            metricsData.count, hself', Option.getD_some]
          congr 1
          ring
      · have hne : (S, P) ≠ (c.1, c.2) := fun h => hcS h.symm
        have h2 : List.count (S, P) (c :: cs) = List.count (S, P) cs := by
          rw [List.count_cons]
          simp [hcS]
        simp only [hcS, if_false, h2, hother S P hne]

/-- A run from the start-up state of at most `maxInt` calls. -/
theorem runConcats_start (sz : IntSize) (cs : List (Int × String))
    (hlen : ((cs.length : Nat) : Int) ≤ maxInt sz) :
    ∃ md, runConcats sz (startServer_md true) cs = .ok md ∧ md.enabled = true ∧
      md.allocated ∧ md.totalRequests = (cs.length : Nat) ∧ md.sumCounts = (cs.length : Nat) ∧
      ∀ S P, md.count? S P
        = if cs.count (S, P) = 0 then none else some ((cs.count (S, P) : Nat) : Int) := by
  have hmin := minInt_neg sz
  have hall : (startServer_md true).allocated := by
    refine ⟨rfl, fun e inner h => ?_⟩
    cases h
  obtain ⟨md, hrun, hen, hal, htot, hsum, hcnt⟩ :=
    runConcats_bounded sz cs (startServer_md true) rfl hall
      (by show minInt sz ≤ 0; omega) (by show (0 : Int) + _ ≤ _; omega)
      (fun S P => by
        have h0 : (startServer_md true).count S P = 0 := rfl
        rw [h0]
        omega)
  have h0 : (startServer_md true).totalRequests = 0 := rfl
  have h1 : (startServer_md true).sumCounts = 0 := rfl
  refine ⟨md, hrun, hen, hal, by rw [htot, h0, zero_add], by rw [hsum, h1, zero_add], ?_⟩
  intro S P
  have h2 : (startServer_md true).count? S P = none := rfl
  have h3 : (startServer_md true).count S P = 0 := rfl
  rw [hcnt S P, h2, h3, zero_add]

/-- The call that takes the total past the largest `int`: after `maxInt` calls one more
call stores the least `int` as the total, while its own count grows by one in `int`
arithmetic. -/
theorem runConcats_overflow (sz : IntSize) (pre : List (Int × String)) (S : Int) (P : String)
    (hlen : ((pre.length : Nat) : Int) = maxInt sz) :
    ∃ md, runConcats sz (startServer_md true) (pre ++ [(S, P)]) = .ok md ∧
      md.totalRequests = minInt sz ∧
      md.count? S P = some (wrapInt sz ((pre.count (S, P) : Nat) + 1)) ∧
      md.sumCounts = maxInt sz - (pre.count (S, P) : Nat)
        + wrapInt sz ((pre.count (S, P) : Nat) + 1) := by
  obtain ⟨md0, hrun0, hen0, hal0, htot0, hsum0, hcnt0⟩ :=
    runConcats_start sz pre (le_of_eq hlen)
  obtain ⟨md1, hc, _, htot1, hself, _, _, hsum1, _, _⟩ :=
    concat_step sz md0 S P hen0 hal0.1 (fun inner hi => hal0.2 S inner hi)
  have hcount0 : md0.count S P = (pre.count (S, P) : Nat) := by
    rw [metricsData.count, hcnt0 S P]
    by_cases hz : List.count (S, P) pre = 0
    · simp [hz]
    · simp [hz]
  refine ⟨md1, ?_, ?_, ?_, ?_⟩
  · rw [runConcats_append sz pre [(S, P)] (startServer_md true) md0 hrun0]
    simp only [runConcats, hc]
  · rw [htot1, htot0, hlen, wrapInt_maxInt_succ]
  · rw [hself, hcount0]
  · rw [hsum1, hsum0, hcount0, hlen]

/-! ## Facts about `display` -/

theorem writes_map_WriteString (cs : List Chunk) (t : List Event) :
    writes (cs.map Event.WriteString ++ t) = cs ++ writes t := by
  induction cs with
  | nil => rfl
  | cons c cs ih => simp [writes, ih]

theorem display_writes {σ : Type} (md : metricsData) (W : Writer σ) (ord : RangeOrder) (o : σ) :
    writes (md.display W ord o).2.2 = displayChunks ord md := by
  simp [metricsData.display, writes, writes_map_WriteString, displayChunks]

theorem reportedTriples_items (k : Int) (l : List (String × Int)) (t : List Chunk) :
    reportedTriples (some k) (l.map (fun pa => Chunk.item pa.2 pa.1) ++ t)
      = l.map (fun pa => (k, pa.1, pa.2)) ++ reportedTriples (some k) t := by
  induction l with
  | nil => rfl
  | cons hd tl ih => simp [reportedTriples, ih]

theorem reportedTriples_displayStatus (ord : RangeOrder) (cur : Option Int)
    (l : List (Int × MapValue String Int)) :
    reportedTriples cur (l.flatMap (displayStatus ord)) = l.flatMap (statusTriples ord) := by
  induction l generalizing cur with
  | nil => cases cur <;> rfl
  | cons kv tl ih =>
    simp only [List.flatMap_cons, displayStatus, List.cons_append, List.append_assoc,
      reportedTriples, reportedTriples_items, List.singleton_append, List.nil_append, ih,
      statusTriples]

theorem reportedTriples_displayChunks (ord : RangeOrder) (md : metricsData) :
    reportedTriples none (displayChunks ord md)
      = (ord.outer md.paths.entries).flatMap (statusTriples ord) := by
  simp only [displayChunks, reportedTriples, reportedTriples_displayStatus]

/-- Every iteration order reports a rearrangement of the stored entries. -/
theorem reportedTriples_perm (ord : RangeOrder) (md : metricsData) :
    (reportedTriples none (displayChunks ord md)).Perm
      (md.paths.entries.flatMap
        (fun kv => kv.2.entries.map (fun pa => (kv.1, pa.1, pa.2)))) := by
  rw [reportedTriples_displayChunks]
  refine ((ord.outer_perm md.paths.entries).flatMap_right _).trans ?_
  exact List.Perm.flatMap_left _ (fun kv _ => (ord.inner_perm kv.1 kv.2.entries).map _)

/-- The two sample orders write the entries of the sample state in different sequences. -/
theorem display_order_matters :
    displayChunks storedOrder sampleMetrics ≠ displayChunks reverseOrder sampleMetrics := by
  decide

/-! ## The metrics aggregator: claims -/

/-- C1, as the code has it: `concat(e, p)` on a disabled aggregator leaves the whole state
as it was. On an enabled one whose `paths` map and whose map under `e`, if there is one,
are not nil, and whose count of `(e, p)` (an absent status code or path counting as 0) and
`totalRequests` are `int`s below the largest `int`, the call returns, the count of `(e, p)`
and `totalRequests` are their former values plus one, and every other (status, path)
entry, every other status code's map and the `enabled` flag stay as they were. -/
theorem concat_contract (sz : IntSize) (md : metricsData) (e : Int) (p : String) :
    (md.enabled = false → md.concat sz e p = (.ok md, [])) ∧
    (md.enabled = true → md.paths.isNil = false →
      (∀ inner, md.paths.get? e = some inner → inner.isNil = false) →
      minInt sz ≤ md.count e p → md.count e p < maxInt sz →
      minInt sz ≤ md.totalRequests → md.totalRequests < maxInt sz →
      ∃ md', (md.concat sz e p).1 = .ok md' ∧
        md'.count? e p = some (md.count e p + 1) ∧
        md'.totalRequests = md.totalRequests + 1 ∧
        (∀ e' p', (e', p') ≠ (e, p) → md'.count? e' p' = md.count? e' p') ∧
        (∀ e', e' ≠ e → md'.paths.get? e' = md.paths.get? e') ∧
        md'.enabled = md.enabled) := by
  refine ⟨fun h => concat_disabled sz md e p h, fun hen hp hin hc1 hc2 ht1 ht2 => ?_⟩
  obtain ⟨md', hc, hen', htot, hself, hother, hne, _, _, _⟩ := concat_step sz md e p hen hp hin
  rw [wrapInt_of_fits sz _ (by omega) (by omega)] at htot hself
  exact ⟨md', by rw [hc], hself, htot, hother, hne, hen'⟩

/-- Instance of C1 on a disabled start-up state and on an enabled state that holds counts,
with a 64-bit `int`. -/
theorem concat_contract_witness :
    ((startServer_md false).enabled = false ∧
      (startServer_md false).concat .bits64 200 "/" = (.ok (startServer_md false), [])) ∧
    (sampleMetrics.enabled = true ∧ sampleMetrics.paths.isNil = false ∧
      sampleMetrics.count 200 "/" = 2 ∧ sampleMetrics.totalRequests = 3 ∧
      ∃ md', (sampleMetrics.concat .bits64 200 "/").1 = .ok md' ∧
        md'.count? 200 "/" = some (sampleMetrics.count 200 "/" + 1) ∧
        md'.totalRequests = sampleMetrics.totalRequests + 1 ∧
        (∀ e' p', (e', p') ≠ (200, "/") → md'.count? e' p' = sampleMetrics.count? e' p') ∧
        (∀ e', e' ≠ 200 → md'.paths.get? e' = sampleMetrics.paths.get? e') ∧
        md'.enabled = sampleMetrics.enabled) :=
  ⟨⟨rfl, (concat_contract .bits64 (startServer_md false) 200 "/").1 rfl⟩,
    ⟨rfl, rfl, by decide, rfl,
      (concat_contract .bits64 sampleMetrics 200 "/").2 rfl rfl
        (fun inner h => by
          have h' : inner = MapValue.alloc (GoMap.make.set "/" 2) :=
            (Option.some.inj h).symm
          rw [h']
          rfl)
        (by decide) (by decide) (by decide) (by decide)⟩⟩

/-- C1 fails in two ways. With a 64-bit `int`, on an enabled state whose total is the largest
`int`, `concat` stores the least `int` as the total, not the former value plus one. On an
enabled state whose `paths` is the nil map, `concat` panics at the assignment, after
taking the lock and without releasing it. -/
theorem concat_wraps_or_panics :
    (fullCounter.enabled = true ∧
      (fullCounter.concat .bits64 200 "/").1.toOption.map (fun md => md.totalRequests)
        = some (-9223372036854775808) ∧
      fullCounter.totalRequests + 1 = 9223372036854775808) ∧
    (nilPaths.enabled = true ∧
      panicMessage (nilPaths.concat .bits64 200 "/").1
        = some "assignment to entry in nil map" ∧
      (nilPaths.concat .bits64 200 "/").2 = [Event.Lock]) := by
  decide

/-- C6, as the code has it: in every state reached from the start-up state by a sequence of
at most `maxInt` `concat` calls (fewer than 2^31 with a 32-bit `int`, 2^63 with a 64-bit
one), every call returns and the sum over all status codes of the per-path counts equals
`totalRequests`. -/
theorem sumCounts_eq_totalRequests (sz : IntSize) (metricsEnabled : Bool)
    (calls : List (Int × String)) (hlen : ((calls.length : Nat) : Int) ≤ maxInt sz) :
    ∃ md, runConcats sz (startServer_md metricsEnabled) calls = .ok md ∧
      md.sumCounts = md.totalRequests := by
  cases metricsEnabled with
  | false => exact ⟨startServer_md false, runConcats_disabled sz _ rfl calls, rfl⟩
  | true =>
    obtain ⟨md, hrun, _, _, htot, hsum, _⟩ := runConcats_start sz calls hlen
    exact ⟨md, hrun, by rw [hsum, htot]⟩

/-- Instance of C6: three calls with a 64-bit `int`. -/
theorem sumCounts_eq_totalRequests_witness :
    ((sampleCalls.length : Nat) : Int) ≤ maxInt .bits64 ∧
    ∃ md, runConcats .bits64 (startServer_md true) sampleCalls = .ok md ∧
      md.sumCounts = md.totalRequests :=
  ⟨by decide, sumCounts_eq_totalRequests .bits64 true sampleCalls (by decide)⟩

/-- C6 fails for a run of 2^31 calls with a 32-bit `int`: after one call for
`(404, "/missing")` and 2^31 - 1 calls for `(200, "/")` the counts are 1 and 2^31 - 1, with
sum 2^31, while `totalRequests` has wrapped to -2^31. -/
theorem sum_exceeds_wrapped_total :
    (runConcats .bits32 (startServer_md true)
        (((404, "/missing") :: List.replicate 2147483646 (200, "/")) ++ [(200, "/")])).toOption.map
      (fun md => (md.sumCounts, md.totalRequests)) = some (2147483648, -2147483648) := by
  have hlen : ((((404, "/missing") :: List.replicate 2147483646 ((200 : Int), "/")).length
      : Nat) : Int) = maxInt .bits32 := by
    rw [List.length_cons, List.length_replicate]
    decide
  have hcount : List.count ((200 : Int), "/")
      ((404, "/missing") :: List.replicate 2147483646 ((200 : Int), "/")) = 2147483646 := by
    rw [List.count_cons, List.count_replicate_self]
    decide
  obtain ⟨md, hrun, htot, _, hsum⟩ := runConcats_overflow .bits32
    ((404, "/missing") :: List.replicate 2147483646 ((200 : Int), "/")) 200 "/" hlen
  rw [hcount] at hsum
  rw [hrun]
  show some (md.sumCounts, md.totalRequests) = _
  rw [hsum, htot]
  decide

/-- C7, as the code has it: with metrics enabled, after any sequence of at most `maxInt`
`concat` calls from the start-up state (fewer than 2^31 with a 32-bit `int`, 2^63 with a
64-bit one), every call has returned, `paths[S][P]` holds the number N of calls with status
S and path P, the entry being absent exactly when N is 0, and `totalRequests` is the length
of the sequence. -/
theorem no_lost_update (sz : IntSize) (calls : List (Int × String))
    (hlen : ((calls.length : Nat) : Int) ≤ maxInt sz) (S : Int) (P : String) :
    ∃ md, runConcats sz (startServer_md true) calls = .ok md ∧
      md.count? S P
        = (if calls.count (S, P) = 0 then none else some ((calls.count (S, P) : Nat) : Int)) ∧
      md.count S P = (calls.count (S, P) : Nat) ∧
      md.totalRequests = (calls.length : Nat) := by
  obtain ⟨md, hrun, _, _, htot, _, hcnt⟩ := runConcats_start sz calls hlen
  refine ⟨md, hrun, hcnt S P, ?_, htot⟩
  rw [metricsData.count, hcnt S P]
  by_cases hz : List.count (S, P) calls = 0
  · simp [hz]
  · simp [hz]

/-- Instance of C7: three calls with a 64-bit `int`, two of them for `(200, "/")`. -/
theorem no_lost_update_witness :
    ((sampleCalls.length : Nat) : Int) ≤ maxInt .bits64 ∧
    ∃ md, runConcats .bits64 (startServer_md true) sampleCalls = .ok md ∧
      md.count? 200 "/"
        = (if sampleCalls.count (200, "/") = 0 then none
            else some ((sampleCalls.count (200, "/") : Nat) : Int)) ∧
      md.count 200 "/" = (sampleCalls.count (200, "/") : Nat) ∧
      md.totalRequests = (sampleCalls.length : Nat) :=
  ⟨by decide, no_lost_update .bits64 sampleCalls (by decide) 200 "/"⟩

/-- C7 fails for a run of 2^31 calls with a 32-bit `int`: after 2^31 calls for
`(200, "/")` both `paths[200]["/"]` and `totalRequests` hold -2^31. -/
theorem counters_wrap_after_maxInt_calls :
    (List.replicate 2147483647 ((200 : Int), "/") ++ [(200, "/")]).length = 2147483648 ∧
    (runConcats .bits32 (startServer_md true)
        (List.replicate 2147483647 (200, "/") ++ [(200, "/")])).toOption.map
      (fun md => (md.count? 200 "/", md.totalRequests))
      = some (some (-2147483648), -2147483648) := by
  have hlen : (((List.replicate 2147483647 ((200 : Int), "/")).length : Nat) : Int)
      = maxInt .bits32 := by
    rw [List.length_replicate]
    decide
  have hcount : List.count ((200 : Int), "/") (List.replicate 2147483647 ((200 : Int), "/"))
      = 2147483647 := List.count_replicate_self _ _
  obtain ⟨md, hrun, htot, hcnt, _⟩ := runConcats_overflow .bits32
    (List.replicate 2147483647 ((200 : Int), "/")) 200 "/" hlen
  rw [hcount] at hcnt
  refine ⟨?_, ?_⟩
  · rw [List.length_append, List.length_replicate]
    rfl
  · rw [hrun]
    show some (md.count? 200 "/", md.totalRequests) = _
    rw [hcnt, htot]
    decide

/-- C9: `display` leaves `enabled`, `totalRequests` and `paths` as they were, whatever the
sink and the iteration order; two `display` calls in a row state the same total and the
same (status, path, count) triples, each as often, whatever order either iterates in. -/
theorem display_frame {σ τ : Type} (md : metricsData) (W : Writer σ) (ord : RangeOrder) (o : σ)
    (W' : Writer τ) (ord' : RangeOrder) (o' : τ) :
    (md.display W ord o).1.enabled = md.enabled ∧
    (md.display W ord o).1.totalRequests = md.totalRequests ∧
    (md.display W ord o).1.paths = md.paths ∧
    reportedTotal (writes ((md.display W ord o).1.display W' ord' o').2.2)
      = reportedTotal (writes (md.display W ord o).2.2) ∧
    reportedTotal (writes (md.display W ord o).2.2) = some md.totalRequests ∧
    (reportedTriples none (writes ((md.display W ord o).1.display W' ord' o').2.2)).Perm
      (reportedTriples none (writes (md.display W ord o).2.2)) ∧
    (∀ t, t ∈ reportedTriples none (writes ((md.display W ord o).1.display W' ord' o').2.2)
      ↔ t ∈ reportedTriples none (writes (md.display W ord o).2.2)) := by
  have hst : (md.display W ord o).1 = md := rfl
  rw [hst, display_writes, display_writes]
  have hp : (reportedTriples none (displayChunks ord' md)).Perm
      (reportedTriples none (displayChunks ord md)) :=
    (reportedTriples_perm ord' md).trans (reportedTriples_perm ord md).symm
  exact ⟨rfl, rfl, rfl, rfl, rfl, hp, fun t => hp.mem_iff⟩

/-- C10, as the code has it: `concat` writes nothing to any sink, so nothing while it holds
the lock; `display` takes the lock first, releases it last, and performs every one of its
writes, of which there is at least one, in between. -/
theorem lock_and_io {σ : Type} (sz : IntSize) (md : metricsData) (e : Int) (p : String)
    (W : Writer σ) (ord : RangeOrder) (o : σ) :
    writes (md.concat sz e p).2 = [] ∧
    noWriteUnderLock false (md.concat sz e p).2 = true ∧
    (md.display W ord o).2.2
      = Event.Lock :: ((displayChunks ord md).map Event.WriteString ++ [Event.Unlock]) ∧
    displayChunks ord md ≠ [] ∧
    noWriteUnderLock false (md.display W ord o).2.2 = false := by
  refine ⟨?_, ?_, rfl, ?_, ?_⟩
  · unfold metricsData.concat
    split
    · split <;> rfl
    · rfl
  · unfold metricsData.concat
    split
    · split <;> rfl
    · rfl
  · simp [displayChunks]
  · simp [metricsData.display, displayChunks, noWriteUnderLock]


/-- C10 fails for `display`: on the start-up state it takes the lock, writes the total line
to the sink and only then releases the lock. -/
theorem display_writes_under_lock :
    ((startServer_md true).display listWriter storedOrder []).2.2
        = [Event.Lock, Event.WriteString (Chunk.total 0), Event.Unlock] ∧
    noWriteUnderLock false ((startServer_md true).display listWriter storedOrder []).2.2 = false ∧
    ((startServer_md true).display listWriter storedOrder []).2.1
        = ["<h1>MicroHTTP metrics</h1><br><b>Total requests:</b> 0<br>"] := by
  decide

/-! ## Facts about `httpProxy` -/

/-- The header copy loop yields the inbound header map, whatever the iteration order. -/
theorem copyHeader_make (order : List (String × List String) → List (String × List String))
    (horder : ∀ l, (order l).Perm l) (src : Header) (k : String) :
    (copyHeader order src GoMap.make).get? k = src.get? k := by
  have hnd : ((order src.entries).map Prod.fst).Nodup :=
    ((horder src.entries).map Prod.fst).nodup_iff.2 src.nodup
  rw [copyHeader, GoMap.get?_foldl_set _ hnd, GoMap.get?_make,
    GoMap.lookupEntries_perm (horder src.entries) src.nodup]
  unfold GoMap.get?
  cases GoMap.lookupEntries src.entries k <;> rfl

/-- What `http.NewRequest` returns when it succeeds. -/
theorem NewRequest_ok (parse : String → Except String URL) (method url body : String)
    (req : Request) (h : NewRequest parse method url body = .ok req) :
    req.Method = (if method = "" then "GET" else method) ∧ req.Header = GoMap.make ∧
      parse url = .ok req.URL := by
  simp only [NewRequest] at h
  by_cases hv : validMethod (if method = "" then "GET" else method) = true
  · rw [if_pos hv] at h
    cases hu : parse url with
    | error err =>
      rw [hu] at h
      cases h
    | ok u =>
      rw [hu] at h
      cases h
      exact ⟨rfl, rfl, rfl⟩
  · rw [if_neg hv] at h
    cases h


/-- The three ways `httpProxy` ends once a proxy rule is found and the firewall allows. -/
theorem httpProxy_blocked (env : Env) (w : ResponseWriter) (r : Request) (cfg : microConfig)
    (val : String) (hrule : cfg.Proxy.Rules.get? (env.httpTrimPort r.Host) = some val)
    (hblock : env.firewallProxy (env.httpTrimPort r.RemoteAddr) (env.httpTrimPort r.Host) = true) :
    httpProxy env w r cfg = (w, [Call.httpThrowError w r 403]) := by
  simp only [httpProxy, hrule, hblock, if_true]

theorem httpProxy_build_failed (env : Env) (w : ResponseWriter) (r : Request)
    (cfg : microConfig) (val err : String)
    (hrule : cfg.Proxy.Rules.get? (env.httpTrimPort r.Host) = some val)
    (hallow : env.firewallProxy (env.httpTrimPort r.RemoteAddr) (env.httpTrimPort r.Host) = false)
    (hnew : NewRequest env.parse r.Method val r.Body = .error err) :
    httpProxy env w r cfg
      = (w, [Call.NewRequest r.Method val, Call.logAction LogLevel.logERROR err,
              Call.httpThrowError w r 502]) := by
  simp [httpProxy, hrule, hallow, hnew]

theorem httpProxy_do_failed (env : Env) (w : ResponseWriter) (r : Request)
    (cfg : microConfig) (val err : String) (req0 : Request)
    (hrule : cfg.Proxy.Rules.get? (env.httpTrimPort r.Host) = some val)
    (hallow : env.firewallProxy (env.httpTrimPort r.RemoteAddr) (env.httpTrimPort r.Host) = false)
    (hnew : NewRequest env.parse r.Method val r.Body = .ok req0)
    (hdo : env.Do (outbound env r req0) = .error err) :
    httpProxy env w r cfg
      = (w, [Call.NewRequest r.Method val, Call.Do (outbound env r req0),
              Call.logAction LogLevel.logERROR err, Call.httpThrowError w r 502]) := by
  simp [httpProxy, hrule, hallow, hnew, hdo]

theorem httpProxy_write_panics (env : Env) (w : ResponseWriter) (r : Request)
    (cfg : microConfig) (val msg : String) (req0 : Request) (resp : Response)
    (hrule : cfg.Proxy.Rules.get? (env.httpTrimPort r.Host) = some val)
    (hallow : env.firewallProxy (env.httpTrimPort r.RemoteAddr) (env.httpTrimPort r.Host) = false)
    (hnew : NewRequest env.parse r.Method val r.Body = .ok req0)
    (hdo : env.Do (outbound env r req0) = .ok resp)
    (hwh : w.WriteHeader resp.StatusCode = .error msg) :
    httpProxy env w r cfg
      = (w, [Call.NewRequest r.Method val, Call.Do (outbound env r req0), Call.panic msg]) := by
  simp [httpProxy, hrule, hallow, hnew, hdo, hwh]

theorem httpProxy_success (env : Env) (w w1 : ResponseWriter) (r : Request)
    (cfg : microConfig) (val : String) (req0 : Request) (resp : Response)
    (hrule : cfg.Proxy.Rules.get? (env.httpTrimPort r.Host) = some val)
    (hallow : env.firewallProxy (env.httpTrimPort r.RemoteAddr) (env.httpTrimPort r.Host) = false)
    (hnew : NewRequest env.parse r.Method val r.Body = .ok req0)
    (hdo : env.Do (outbound env r req0) = .ok resp)
    (hwh : w.WriteHeader resp.StatusCode = .ok w1) :
    httpProxy env w r cfg
      = (ioCopy ((w1.HeaderSet "Content-Type"
            (resp.Header.Get "Content-Type")).HeaderSet "Content-Length"
            (resp.Header.Get "Content-Length")) resp.Body,
          [Call.NewRequest r.Method val, Call.Do (outbound env r req0), Call.BodyClose,
            Call.logNetwork resp.StatusCode r]) := by
  simp [httpProxy, hrule, hallow, hnew, hdo, hwh]

/-- On a writer whose status is still unwritten, a successful proxy round trip with a final
status code sends the upstream status with the header map as it stood before the two
`Set` calls. -/
theorem httpProxy_success_committed (env : Env) (w : ResponseWriter) (r : Request)
    (cfg : microConfig) (val : String) (req0 : Request) (resp : Response)
    (hrule : cfg.Proxy.Rules.get? (env.httpTrimPort r.Host) = some val)
    (hallow : env.firewallProxy (env.httpTrimPort r.RemoteAddr) (env.httpTrimPort r.Host) = false)
    (hnew : NewRequest env.parse r.Method val r.Body = .ok req0)
    (hdo : env.Do (outbound env r req0) = .ok resp) (hw : w.committed = none)
    (hcode : 200 ≤ resp.StatusCode ∧ resp.StatusCode ≤ 999) :
    (httpProxy env w r cfg).1.committed = some (resp.StatusCode, w.header) := by
  have hwh : w.WriteHeader resp.StatusCode
      = .ok { w with committed := some (resp.StatusCode, w.header) } := by
    have h1 : ¬ (resp.StatusCode < 100 ∨ 999 < resp.StatusCode) := by omega
    have h2 : ¬ (100 ≤ resp.StatusCode ∧ resp.StatusCode ≤ 199 ∧ resp.StatusCode ≠ 101) := by
      omega
    simp only [ResponseWriter.WriteHeader, hw, h1, h2, if_false]
  rw [httpProxy_success env w _ r cfg val req0 resp hrule hallow hnew hdo hwh]
  simp only [ioCopy, ResponseWriter.Write, ResponseWriter.HeaderSet]
  split
  · rfl
  · split <;> rfl

/-- The `concat` calls on each way out of `httpProxy`: one on the 403 and 502 ways, none
after a successful round trip. -/
theorem httpProxy_concatCalls (env : Env) (w : ResponseWriter) (r : Request)
    (cfg : microConfig) (val : String)
    (hrule : cfg.Proxy.Rules.get? (env.httpTrimPort r.Host) = some val) :
    concatCalls (httpProxy env w r cfg).2
      = if env.firewallProxy (env.httpTrimPort r.RemoteAddr) (env.httpTrimPort r.Host) = true
        then [((403 : Int), r.URL.Path)]
        else match NewRequest env.parse r.Method val r.Body with
          | .error _ => [((502 : Int), r.URL.Path)]
          | .ok req0 =>
            match env.Do (outbound env r req0) with
            | .error _ => [((502 : Int), r.URL.Path)]
            | .ok _ => [] := by
  by_cases hb : env.firewallProxy (env.httpTrimPort r.RemoteAddr) (env.httpTrimPort r.Host) = true
  · rw [httpProxy_blocked env w r cfg val hrule hb, if_pos hb]
    rfl
  · have hallow := Bool.eq_false_iff.2 hb
    rw [if_neg hb]
    cases hnew : NewRequest env.parse r.Method val r.Body with
    | error err =>
      rw [httpProxy_build_failed env w r cfg val err hrule hallow hnew]
      rfl
    | ok req0 =>
      cases hdo : env.Do (outbound env r req0) with
      | error err =>
        rw [httpProxy_do_failed env w r cfg val err req0 hrule hallow hnew hdo]
        simp [hdo, concatCalls, httpThrowError_concats, log_concats]
      | ok resp =>
        cases hwh : w.WriteHeader resp.StatusCode with
        | error msg =>
          rw [httpProxy_write_panics env w r cfg val msg req0 resp hrule hallow hnew hdo hwh]
          simp [hdo, concatCalls]
        | ok w1 =>
          rw [httpProxy_success env w w1 r cfg val req0 resp hrule hallow hnew hdo hwh]
          simp [hdo, concatCalls, log_concats]

/-! ## The reverse-proxy forwarder: claims -/

/-- C2: when the port-stripped host has a proxy rule and `firewallProxy` blocks, `httpProxy`
builds no outbound request, sends none, calls `httpThrowError` with 403 on the untouched
response writer and does nothing else. -/
theorem firewall_block_is_terminal (env : Env) (w : ResponseWriter) (r : Request)
    (cfg : microConfig) (val : String)
    (hrule : cfg.Proxy.Rules.get? (env.httpTrimPort r.Host) = some val)
    (hblock : env.firewallProxy (env.httpTrimPort r.RemoteAddr) (env.httpTrimPort r.Host) = true) :
    (httpProxy env w r cfg).2 = [Call.httpThrowError w r 403] ∧
    (httpProxy env w r cfg).1 = w ∧
    newRequestCalls (httpProxy env w r cfg).2 = [] ∧
    doCalls (httpProxy env w r cfg).2 = [] := by
  rw [httpProxy_blocked env w r cfg val hrule hblock]
  exact ⟨rfl, rfl, rfl, rfl⟩


/-- Instance of C2: the sample request with a blocking firewall. -/
theorem firewall_block_is_terminal_witness :
    sampleConfig.Proxy.Rules.get? ((sampleEnv true (.ok sampleResponse)).httpTrimPort
        sampleRequest.Host) = some "http://10.0.0.5:9000/base?x=1" ∧
    (sampleEnv true (.ok sampleResponse)).firewallProxy
        ((sampleEnv true (.ok sampleResponse)).httpTrimPort sampleRequest.RemoteAddr)
        ((sampleEnv true (.ok sampleResponse)).httpTrimPort sampleRequest.Host) = true ∧
    doCalls (httpProxy (sampleEnv true (.ok sampleResponse)) freshWriter sampleRequest
        sampleConfig).2 = [] :=
  ⟨by decide, rfl,
    (firewall_block_is_terminal (sampleEnv true (.ok sampleResponse)) freshWriter sampleRequest
      sampleConfig "http://10.0.0.5:9000/base?x=1" (by decide) rfl).2.2.2⟩

/-- C3: when the host has a proxy rule, the firewall allows and `http.NewRequest` succeeds
on an inbound request with a method, `httpProxy` hands exactly one request to the client;
it has the inbound method, path, raw path and raw query, the scheme and host of the rule's
URL, and under every header key what the inbound request has under it. -/
theorem outbound_request_fidelity (env : Env) (w : ResponseWriter) (r : Request)
    (cfg : microConfig) (val : String) (req0 : Request)
    (hrule : cfg.Proxy.Rules.get? (env.httpTrimPort r.Host) = some val)
    (hallow : env.firewallProxy (env.httpTrimPort r.RemoteAddr) (env.httpTrimPort r.Host) = false)
    (hmethod : r.Method ≠ "")
    (hnew : NewRequest env.parse r.Method val r.Body = .ok req0) :
    ∃ req u, doCalls (httpProxy env w r cfg).2 = [req] ∧ env.parse val = .ok u ∧
      req.Method = r.Method ∧
      req.URL.Path = r.URL.Path ∧ req.URL.RawPath = r.URL.RawPath ∧
      req.URL.RawQuery = r.URL.RawQuery ∧
      req.URL.Scheme = u.Scheme ∧ req.URL.Host = u.Host ∧
      ∀ k, req.Header.get? k = r.Header.get? k := by
  obtain ⟨hm, hh, hu⟩ := NewRequest_ok env.parse r.Method val r.Body req0 hnew
  rw [if_neg hmethod] at hm
  refine ⟨outbound env r req0, req0.URL, ?_, hu, hm, rfl, rfl, rfl, rfl, rfl, ?_⟩
  · cases hdo : env.Do (outbound env r req0) with
    | error err =>
      rw [httpProxy_do_failed env w r cfg val err req0 hrule hallow hnew hdo]
      rfl
    | ok resp =>
      cases hwh : w.WriteHeader resp.StatusCode with
      | error msg =>
        rw [httpProxy_write_panics env w r cfg val msg req0 resp hrule hallow hnew hdo hwh]
        rfl
      | ok w1 =>
        rw [httpProxy_success env w w1 r cfg val req0 resp hrule hallow hnew hdo hwh]
        rfl
  · intro k
    show (copyHeader env.headerOrder r.Header req0.Header).get? k = r.Header.get? k
    rw [hh]
    exact copyHeader_make env.headerOrder env.headerOrder_perm r.Header k


/-- Instance of C3: the sample request, allowed, with a rule whose URL has its own path
and query. -/
theorem outbound_request_fidelity_witness :
    sampleRequest.Method ≠ "" ∧
    NewRequest (sampleEnv false (.ok sampleResponse)).parse sampleRequest.Method
        "http://10.0.0.5:9000/base?x=1" sampleRequest.Body = .ok sampleBuilt ∧
    ∃ req u, doCalls (httpProxy (sampleEnv false (.ok sampleResponse)) freshWriter
          sampleRequest sampleConfig).2 = [req] ∧
      (sampleEnv false (.ok sampleResponse)).parse "http://10.0.0.5:9000/base?x=1" = .ok u ∧
      req.Method = sampleRequest.Method ∧
      req.URL.Path = sampleRequest.URL.Path ∧ req.URL.RawPath = sampleRequest.URL.RawPath ∧
      req.URL.RawQuery = sampleRequest.URL.RawQuery ∧
      req.URL.Scheme = u.Scheme ∧ req.URL.Host = u.Host ∧
      ∀ k, req.Header.get? k = sampleRequest.Header.get? k :=
  ⟨by decide, rfl,
    outbound_request_fidelity (sampleEnv false (.ok sampleResponse)) freshWriter sampleRequest
      sampleConfig "http://10.0.0.5:9000/base?x=1" sampleBuilt (by decide) rfl (by decide) rfl⟩

/-- C5: when the host has a proxy rule and the firewall allows, a failure to build the
outbound request or an error from executing it makes `httpProxy` log that error and then
call `httpThrowError` with 502 on the response writer exactly as it was received; before
that it only built and, in the second case, sent the outbound request. -/
theorem upstream_failure_502 (env : Env) (w : ResponseWriter) (r : Request)
    (cfg : microConfig) (val err : String)
    (hrule : cfg.Proxy.Rules.get? (env.httpTrimPort r.Host) = some val)
    (hallow : env.firewallProxy (env.httpTrimPort r.RemoteAddr) (env.httpTrimPort r.Host) = false)
    (hfail : NewRequest env.parse r.Method val r.Body = .error err ∨
      ∃ req0, NewRequest env.parse r.Method val r.Body = .ok req0 ∧
        env.Do (outbound env r req0) = .error err) :
    (httpProxy env w r cfg).1 = w ∧
    ∃ before, (httpProxy env w r cfg).2
        = before ++ [Call.logAction LogLevel.logERROR err, Call.httpThrowError w r 502] ∧
      ∀ c ∈ before, (∃ m u, c = Call.NewRequest m u) ∨ ∃ q, c = Call.Do q := by
  rcases hfail with hnew | ⟨req0, hnew, hdo⟩
  · rw [httpProxy_build_failed env w r cfg val err hrule hallow hnew]
    refine ⟨rfl, [Call.NewRequest r.Method val], rfl, ?_⟩
    intro c hc
    rw [List.mem_singleton] at hc
    exact Or.inl ⟨_, _, hc⟩
  · rw [httpProxy_do_failed env w r cfg val err req0 hrule hallow hnew hdo]
    refine ⟨rfl, [Call.NewRequest r.Method val, Call.Do (outbound env r req0)], rfl, ?_⟩
    intro c hc
    rcases List.mem_cons.1 hc with h1 | h2
    · exact Or.inl ⟨_, _, h1⟩
    · rw [List.mem_singleton] at h2
      exact Or.inr ⟨_, h2⟩


/-- Instance of C5: the sample request, allowed, with an upstream that cannot be reached. -/
theorem upstream_failure_502_witness :
    NewRequest (sampleEnv false (.error "dial tcp: connection refused")).parse
        sampleRequest.Method "http://10.0.0.5:9000/base?x=1" sampleRequest.Body
      = .ok sampleBuilt ∧
    (sampleEnv false (.error "dial tcp: connection refused")).Do
        (outbound (sampleEnv false (.error "dial tcp: connection refused")) sampleRequest
          sampleBuilt) = .error "dial tcp: connection refused" ∧
    (httpProxy (sampleEnv false (.error "dial tcp: connection refused")) freshWriter
        sampleRequest sampleConfig).1 = freshWriter ∧
    ∃ before, (httpProxy (sampleEnv false (.error "dial tcp: connection refused")) freshWriter
          sampleRequest sampleConfig).2
        = before ++ [Call.logAction LogLevel.logERROR "dial tcp: connection refused",
            Call.httpThrowError freshWriter sampleRequest 502] ∧
      ∀ c ∈ before, (∃ m u, c = Call.NewRequest m u) ∨ ∃ q, c = Call.Do q :=
  ⟨rfl, rfl,
    upstream_failure_502 (sampleEnv false (.error "dial tcp: connection refused")) freshWriter
      sampleRequest sampleConfig "http://10.0.0.5:9000/base?x=1" "dial tcp: connection refused"
      (by decide) rfl (Or.inr ⟨sampleBuilt, rfl, rfl⟩)⟩

/-- C4 fails on the sample request: the status 200 is sent with the header map as it stood
before `Content-Type` and `Content-Length` were set, so neither header of the upstream
response is in the header set sent with the status; they only reach the handed-out map. -/
theorem success_status_sent_before_headers :
    (httpProxy (sampleEnv false (.ok sampleResponse)) freshWriter sampleRequest
        sampleConfig).1.committed.map
      (fun c => (c.1, c.2.get? "Content-Type", c.2.get? "Content-Length", c.2.entries))
      = some (200, none, none, []) ∧
    sampleResponse.Header.Get "Content-Type" = "application/json" ∧
    sampleResponse.Header.Get "Content-Length" = "2" ∧
    (httpProxy (sampleEnv false (.ok sampleResponse)) freshWriter sampleRequest
        sampleConfig).1.header.entries
      = [("Content-Length", ["2"]), ("Content-Type", ["application/json"])] :=
  ⟨rfl, rfl, rfl, rfl⟩

/-- C8 fails on the sample request: after a successful round trip with status 200 the calls
of `httpProxy` are `http.NewRequest`, `cl.Do`, `Close` and `logNetwork`, and no `concat`
call is among them or made by them. -/
theorem success_path_records_nothing :
    concatCalls (httpProxy (sampleEnv false (.ok sampleResponse)) freshWriter sampleRequest
        sampleConfig).2 = [] ∧
    (httpProxy (sampleEnv false (.ok sampleResponse)) freshWriter sampleRequest
        sampleConfig).1.committed.map Prod.fst = some 200 ∧
    concatCalls (httpProxy (sampleEnv true (.ok sampleResponse)) freshWriter sampleRequest
        sampleConfig).2 = [(403, "/api/items")] ∧
    concatCalls (httpProxy (sampleEnv false (.error "dial tcp: connection refused"))
        freshWriter sampleRequest sampleConfig).2 = [(502, "/api/items")] := by
  decide

end MicroHTTP
